import Mathlib

/-!
Verification of the license-header compliance checker
(`internal/policy/license/license.go`).

The Go code walks the current directory with `filepath.Walk`, consults a
gitignore-style matcher built from `SkipPaths`, filters regular files by
`ExcludeSuffixes` / `IncludeSuffixes`, reads each candidate file and compares
its leading bytes against the configured `Header`.  Violations are
accumulated into a `HeaderCheck`, which `Compliance` wraps into a `Report`.

Shallow embedding conventions:
* Go strings and file contents are byte sequences; `Header` and file
  contents are modelled as `List Nat` (byte values), file and path names as
  `String` (Go byte-level suffix tests become `strHasSuffix` on
  valid UTF-8 names).
* The external library `denormal/go-gitignore` is modelled as an oracle
  (`GitIgnore`): a match function standing for
  `patternmatcher.Relative(path, isDir) != nil` plus the list of parse
  errors the library hands to the error callback during `gitignore.New`.
* The filesystem is a finite tree; a file carries `some content` when
  `ioutil.ReadFile` succeeds and `none` when it fails; a directory carries
  a `readable` flag standing for whether `readDirNames` succeeds.
* `filepath.Walk` and the walk callback are fused into `walkTree` /
  `walkForest`, which follow Go's `path/filepath.walk` control flow
  (`SkipDir`, error propagation) exactly; reads performed by the callback
  are returned explicitly.
-/

/-- A violation recorded in `check.errors`.  Each constructor corresponds to
one `append` site in the Go source:
* `patternError` — the raw `e.Underlying()` appended by the `gitignore.New`
  error callback (license.go:86);
* `headerNotDefined` — `errors.New("Header is not defined")` (license.go:91);
* `failedToOpen` — `errors.Errorf("Failed to open %s", path)` (license.go:126);
* `missingHeader` — `errors.Errorf("File %s does not contain a license
  header", path)` (license.go:134);
* `walkFailed` — `errors.Errorf("Failed to walk directory: %v", err)`
  (license.go:141). -/
inductive Violation where
  | patternError (raw : String)
  | headerNotDefined
  | failedToOpen (path : String)
  | missingHeader (path : String)
  | walkFailed (msg : String)
deriving DecidableEq, Repr

/-- The message text each violation renders to, mirroring the Go format
strings. -/
def violationMessage : Violation → String
  | .patternError raw => raw
  | .headerNotDefined => "Header is not defined"
  | .failedToOpen p => "Failed to open " ++ p
  | .missingHeader p => "File " ++ p ++ " does not contain a license header"
  | .walkFailed e => "Failed to walk directory: " ++ e

/-- `HeaderCheck` from license.go: the accumulated violation list. -/
structure HeaderCheck where
  errors : List Violation
deriving DecidableEq, Repr

/-- `HeaderCheck.Name` from license.go. -/
def HeaderCheck.Name (_ : HeaderCheck) : String := "File Header"

/-- `HeaderCheck.Message` from license.go. -/
def HeaderCheck.Message (c : HeaderCheck) : String :=
  if c.errors.length ≠ 0 then
    "Found " ++ toString c.errors.length ++ " files without license header"
  else
    "All files have a valid license header"

/-- `HeaderCheck.Errors` from license.go. -/
def HeaderCheck.Errors (c : HeaderCheck) : List Violation := c.errors

/-- `policy.Report`: the list of checks added via `AddCheck`. -/
structure Report where
  checks : List HeaderCheck
deriving DecidableEq, Repr

/-- `Report.AddCheck` appends a check. -/
def Report.AddCheck (r : Report) (c : HeaderCheck) : Report :=
  { checks := r.checks ++ [c] }

/-- The `License` configuration struct.  `Header` is the byte sequence of
the Go string (Go strings are byte strings; `Header == ""` is `Header = []`). -/
structure License where
  SkipPaths : List String
  IncludeSuffixes : List String
  ExcludeSuffixes : List String
  Header : List Nat
deriving DecidableEq, Repr

/-- Oracle for the compiled gitignore matcher returned by `gitignore.New`:
`rel path isDir` stands for `patternmatcher.Relative(path, isDir) != nil`,
and `errs` is the list of parse-error strings the library reported through
the error callback while `gitignore.New` consumed the pattern buffer. -/
structure GitIgnore where
  rel : String → Bool → Bool
  errs : List String

mutual
/-- A filesystem entry.  `file name content`: a regular file; `content` is
`some bytes` when `ioutil.ReadFile` succeeds and `none` when it fails.
`dir name readable kids`: a directory; `readable = false` means
`readDirNames` fails for it. -/
inductive FSTree where
  | file : String → Option (List Nat) → FSTree
  | dir : String → Bool → FSForest → FSTree
/-- An ordered sequence of sibling filesystem entries (the order
`filepath.Walk` visits them in). -/
inductive FSForest where
  | nil : FSForest
  | cons : FSTree → FSForest → FSForest
end

/-- The base name of an entry (`info.Name()`). -/
def nodeName : FSTree → String
  | .file n _ => n
  | .dir n _ _ => n

/-- Whether an entry is a directory (`info.IsDir()`). -/
def isDirNode : FSTree → Bool
  | .file _ _ => false
  | .dir _ _ _ => true

/-- `strings.HasSuffix name sfx` from the Go standard library: a trailing
match.  Go compares byte suffixes; on valid UTF-8 names this coincides with
a character-sequence suffix, which is what we compute. -/
def strHasSuffix (name sfx : String) : Bool :=
  sfx.data.isSuffixOf name.data

/-- `filepath.Join` as used by the walk: joining the root `"."` with a name
drops the `"./"` prefix. -/
def joinPath (p n : String) : String :=
  if p = "." then n else p ++ "/" ++ n

/-- Outcome of the walk callback / of walking a subtree: `ok` (`nil`),
`skipDir` (`filepath.SkipDir`), or `fail` (any other non-nil error, carrying
its message). -/
inductive WalkRes where
  | ok
  | skipDir
  | fail (msg : String)
deriving DecidableEq, Repr

/-- Result of walking (part of) the tree: the violations appended to
`check.errors` in order, the paths passed to `ioutil.ReadFile` in order,
and the error returned to the enclosing `filepath.walk` frame. -/
structure WalkOut where
  viols : List Violation
  reads : List String
  res : WalkRes
deriving DecidableEq, Repr

/-- The loop `for _, suffix := range l.IncludeSuffixes` (license.go:121-135)
for one regular file: each include suffix that is a suffix of the file name
triggers a `ReadFile`; a failed read appends one `failedToOpen` and returns
from the callback (ending the loop); a successful read appends
`missingHeader` unless the content starts with the header bytes.  Returns
the appended violations and the attempted read paths, in order. -/
def includeLoop (value : List Nat) (path name : String)
    (content : Option (List Nat)) : List String → List Violation × List String
  | [] => ([], [])
  | sfx :: rest =>
    if strHasSuffix name sfx then
      match content with
      | none => ([Violation.failedToOpen path], [path])
      | some c =>
        let (vs, rs) := includeLoop value path name content rest
        if value.isPrefixOf c then (vs, path :: rs)
        else (Violation.missingHeader path :: vs, path :: rs)
    else
      includeLoop value path name content rest

/-- The regular-file part of the walk callback (license.go:112-136): the
exclude-suffix loop returns early on the first match; otherwise the
include-suffix loop runs. -/
def fileChecks (L : License) (path name : String)
    (content : Option (List Nat)) : List Violation × List String :=
  if L.ExcludeSuffixes.any (fun s => strHasSuffix name s) then ([], [])
  else includeLoop L.Header path name content L.IncludeSuffixes

mutual
/-- `filepath.walk` fused with the callback of `ValidateLicenseHeader`.

For a file: the callback's pattern-match test (license.go:101) never skips a
non-directory — the `return nil` under the comment `skip single file` sits
below a second `info.IsDir()` test and is unreachable — so a matched file
falls through to the regular-file checks like any other.

For a directory: Go reads the directory names first; on failure the
callback receives that error and returns it (our callback's first branch),
failing the walk.  Otherwise the callback runs: a pattern match on a
directory returns `SkipDir`; a directory is not a regular file, so the
suffix logic is skipped and the children are walked. -/
def walkTree (L : License) (m : String → Bool → Bool) (path : String) :
    FSTree → WalkOut
  | .file name content =>
    let (vs, rs) := fileChecks L path name content
    { viols := vs, reads := rs, res := WalkRes.ok }
  | .dir _ readable kids =>
    if readable then
      if m path true then { viols := [], reads := [], res := WalkRes.skipDir }
      else walkForest L m path kids
    else
      { viols := [], reads := [],
        res := WalkRes.fail ("readdir " ++ path) }
/-- The loop over a directory's entries in `filepath.walk`: a child failing
with a real error aborts the whole walk; a directory child returning
`SkipDir` is skipped and the loop continues; a non-directory child
returning `SkipDir` ends the containing directory (Go's
`!fileInfo.IsDir() || err != SkipDir` test). -/
def walkForest (L : License) (m : String → Bool → Bool) (parent : String) :
    FSForest → WalkOut
  | .nil => { viols := [], reads := [], res := WalkRes.ok }
  | .cons c rest =>
    let out := walkTree L m (joinPath parent (nodeName c)) c
    match out.res with
    | WalkRes.fail e => { viols := out.viols, reads := out.reads, res := WalkRes.fail e }
    | WalkRes.skipDir =>
      if isDirNode c then
        let out2 := walkForest L m parent rest
        { viols := out.viols ++ out2.viols, reads := out.reads ++ out2.reads,
          res := out2.res }
      else { viols := out.viols, reads := out.reads, res := WalkRes.skipDir }
    | WalkRes.ok =>
      let out2 := walkForest L m parent rest
      { viols := out.viols ++ out2.viols, reads := out.reads ++ out2.reads,
        res := out2.res }
end

/-- `ValidateLicenseHeader` (license.go:76-145), with the reads performed
made explicit.  `lib` is the external gitignore library applied to the
pattern buffer built from `SkipPaths`: its parse errors are appended first
(by the `gitignore.New` callback), then an empty header short-circuits with
the single `headerNotDefined` violation and no walk; otherwise the tree is
walked from `"."` and a failing walk appends one wrapped `walkFailed`
violation at the end. -/
def ValidateLicenseHeaderFull (lib : List String → GitIgnore) (L : License)
    (root : FSTree) : HeaderCheck × List String :=
  let pm := lib L.SkipPaths
  let pe := pm.errs.map Violation.patternError
  if L.Header = [] then
    ({ errors := pe ++ [Violation.headerNotDefined] }, [])
  else
    let w := walkTree L pm.rel "." root
    match w.res with
    | WalkRes.fail e =>
      ({ errors := pe ++ w.viols ++ [Violation.walkFailed e] }, w.reads)
    | _ => ({ errors := pe ++ w.viols }, w.reads)

/-- `ValidateLicenseHeader` as the Go function returns it: just the check. -/
def ValidateLicenseHeader (lib : List String → GitIgnore) (L : License)
    (root : FSTree) : HeaderCheck :=
  (ValidateLicenseHeaderFull lib L root).1

/-- `License.Compliance` (license.go:40-45): builds a fresh report, adds the
header check, and returns a nil error.  `options` models the
`*policy.Options` argument (polymorphic: it is never inspected). -/
def Compliance {O : Type} (lib : List String → GitIgnore) (L : License)
    (root : FSTree) (options : O) : Report × Option String :=
  let report : Report := { checks := [] }
  let report := report.AddCheck (ValidateLicenseHeader lib L root)
  (report, none)

/-! ## The visited-file view of the walk

`visitTree` / `visitForest` compute, with exactly the control flow of
`walkTree` / `walkForest`, the sequence of regular files the walk hands to
the suffix/header logic.  The characterisation theorems below show that the
violations and reads of the walk are the per-entry violations and reads of
this sequence, concatenated in visit order. -/

/-- A regular file the walk visits: its path (as handed to the callback),
its base name, and its read outcome. -/
structure Entry where
  path : String
  name : String
  content : Option (List Nat)
deriving DecidableEq, Repr

mutual
/-- The regular files visited under one entry, with the walk result. -/
def visitTree (m : String → Bool → Bool) (path : String) :
    FSTree → List Entry × WalkRes
  | .file name content =>
    ([{ path := path, name := name, content := content }], WalkRes.ok)
  | .dir _ readable kids =>
    if readable then
      if m path true then ([], WalkRes.skipDir)
      else visitForest m path kids
    else ([], WalkRes.fail ("readdir " ++ path))
/-- The regular files visited in a sibling sequence, with the walk result. -/
def visitForest (m : String → Bool → Bool) (parent : String) :
    FSForest → List Entry × WalkRes
  | .nil => ([], WalkRes.ok)
  | .cons c rest =>
    let out := visitTree m (joinPath parent (nodeName c)) c
    match out.2 with
    | WalkRes.fail e => (out.1, WalkRes.fail e)
    | WalkRes.skipDir =>
      if isDirNode c then
        let out2 := visitForest m parent rest
        (out.1 ++ out2.1, out2.2)
      else (out.1, WalkRes.skipDir)
    | WalkRes.ok =>
      let out2 := visitForest m parent rest
      (out.1 ++ out2.1, out2.2)
end

/-- The violations the callback appends for one visited file. -/
def entryViols (L : License) (e : Entry) : List Violation :=
  (fileChecks L e.path e.name e.content).1

/-- The read attempts the callback makes for one visited file. -/
def entryReads (L : License) (e : Entry) : List String :=
  (fileChecks L e.path e.name e.content).2

/-- Concatenated violations of a sequence of visited files. -/
def violsOf (L : License) : List Entry → List Violation
  | [] => []
  | e :: es => entryViols L e ++ violsOf L es

/-- Concatenated read attempts of a sequence of visited files. -/
def readsOf (L : License) : List Entry → List String
  | [] => []
  | e :: es => entryReads L e ++ readsOf L es

/-! ## Per-entry lemmas and violation bookkeeping -/

/-- The path a violation names, if any: the two per-file violations carry
the offending path; the other three do not name a path. -/
def violationPathOf : Violation → Option String
  | .failedToOpen p => some p
  | .missingHeader p => some p
  | _ => none

/-- Whether a violation is a per-file violation for path `p`. -/
def mentionsFile (p : String) (v : Violation) : Bool :=
  violationPathOf v == some p

/-- The violations of a run that concern the file at path `p`. -/
def violsAt (p : String) (vs : List Violation) : List Violation :=
  vs.filter (fun v => mentionsFile p v)

/-- Whether a violation is a lower-level error appended to the report
without wrapping: only the `gitignore` parse errors are (`e.Underlying()`
at license.go:86); every other append site constructs a fresh message. -/
def isRawPassThrough : Violation → Bool
  | .patternError _ => true
  | _ => false

/-- Whether a read outcome starts with the given header bytes (the
`bytes.HasPrefix(contents, value)` test; an unreadable file has no
compliant content). -/
def compliantContent (hdr : List Nat) : Option (List Nat) → Bool
  | some c => hdr.isPrefixOf c
  | none => false

/-- The trailing violation a failing walk appends (license.go:140-142). -/
def walkTail : WalkRes → List Violation
  | WalkRes.fail e => [Violation.walkFailed e]
  | _ => []
theorem violsOf_append (L : License) (l1 l2 : List Entry) :
    violsOf L (l1 ++ l2) = violsOf L l1 ++ violsOf L l2 := by
  induction l1 with
  | nil => simp [violsOf]
  | cons e es ih => simp [violsOf, ih]

theorem readsOf_append (L : License) (l1 l2 : List Entry) :
    readsOf L (l1 ++ l2) = readsOf L l1 ++ readsOf L l2 := by
  induction l1 with
  | nil => simp [readsOf]
  | cons e es ih => simp [readsOf, ih]

mutual
/-- The walk of a subtree is determined by the files it visits: its
violations and reads are the per-file ones in visit order. -/
theorem walkTree_visit (L : License) (m : String → Bool → Bool)
    (path : String) (t : FSTree) :
    walkTree L m path t =
      { viols := violsOf L (visitTree m path t).1,
        reads := readsOf L (visitTree m path t).1,
        res := (visitTree m path t).2 } := by
  cases t with
  | file name content =>
    simp [walkTree, visitTree, violsOf, readsOf, entryViols, entryReads]
  | dir name readable kids =>
    by_cases hr : readable = true
    · by_cases hm : m path true = true
      · simp [walkTree, visitTree, hr, hm, violsOf, readsOf]
      · simp only [walkTree, visitTree, hr, hm, Bool.false_eq_true, if_true,
          if_false]
        exact walkForest_visit L m path kids
    · simp [walkTree, visitTree, hr, violsOf, readsOf]

/-- The walk of a sibling sequence is determined by the files it visits. -/
theorem walkForest_visit (L : License) (m : String → Bool → Bool)
    (parent : String) (f : FSForest) :
    walkForest L m parent f =
      { viols := violsOf L (visitForest m parent f).1,
        reads := readsOf L (visitForest m parent f).1,
        res := (visitForest m parent f).2 } := by
  cases f with
  | nil => simp [walkForest, visitForest, violsOf, readsOf]
  | cons c rest =>
    have h1 := walkTree_visit L m (joinPath parent (nodeName c)) c
    have h2 := walkForest_visit L m parent rest
    simp only [walkForest, visitForest, h1]
    cases hres : (visitTree m (joinPath parent (nodeName c)) c).2 with
    | ok => simp [h2, violsOf_append, readsOf_append]
    | skipDir =>
      by_cases hd : isDirNode c = true
      · simp [hd, h2, violsOf_append, readsOf_append]
      · simp [hd]
    | fail e => simp
end


theorem includeLoop_viols_compliant (value : List Nat) (path name : String)
    (c : List Nat) (h : value.isPrefixOf c = true) (sfxs : List String) :
    (includeLoop value path name (some c) sfxs).1 = [] := by
  induction sfxs with
  | nil => simp [includeLoop]
  | cons s rest ih =>
    by_cases hs : strHasSuffix name s = true
    · simp [includeLoop, hs, h, ih]
    · simp [includeLoop, hs, ih]

theorem includeLoop_viols_missing (value : List Nat) (path name : String)
    (c : List Nat) (h : value.isPrefixOf c = false) (sfxs : List String) :
    (includeLoop value path name (some c) sfxs).1 =
      (sfxs.filter (fun s => strHasSuffix name s)).map
        (fun _ => Violation.missingHeader path) := by
  induction sfxs with
  | nil => simp [includeLoop]
  | cons s rest ih =>
    by_cases hs : strHasSuffix name s = true
    · simp [includeLoop, hs, h, ih]
    · simp [includeLoop, hs, ih]

theorem includeLoop_viols_unreadable (value : List Nat) (path name : String)
    (sfxs : List String) :
    (includeLoop value path name none sfxs).1 =
      if sfxs.any (fun s => strHasSuffix name s) then
        [Violation.failedToOpen path]
      else [] := by
  induction sfxs with
  | nil => simp [includeLoop]
  | cons s rest ih =>
    by_cases hs : strHasSuffix name s = true
    · simp [includeLoop, hs]
    · simp [includeLoop, hs, ih]

theorem includeLoop_viols_paths (value : List Nat) (path name : String)
    (content : Option (List Nat)) (sfxs : List String) :
    ∀ v ∈ (includeLoop value path name content sfxs).1,
      violationPathOf v = some path := by
  induction sfxs with
  | nil => simp [includeLoop]
  | cons s rest ih =>
    by_cases hs : strHasSuffix name s = true
    · cases content with
      | none => simp [includeLoop, hs, violationPathOf]
      | some c =>
        by_cases hp : value.isPrefixOf c = true
        · simpa [includeLoop, hs, hp] using ih
        · intro v hv
          simp only [includeLoop, hs, if_true, hp] at hv
          simp only [Bool.not_eq_true] at hp
          simp [hp] at hv
          rcases hv with h1 | h1
          · simp [h1, violationPathOf]
          · exact ih v h1
    · simpa [includeLoop, hs] using ih

theorem includeLoop_reads_paths (value : List Nat) (path name : String)
    (content : Option (List Nat)) (sfxs : List String) :
    ∀ r ∈ (includeLoop value path name content sfxs).2, r = path := by
  induction sfxs with
  | nil => simp [includeLoop]
  | cons s rest ih =>
    by_cases hs : strHasSuffix name s = true
    · cases content with
      | none => simp [includeLoop, hs]
      | some c =>
        by_cases hp : value.isPrefixOf c = true
        · intro r hr
          simp only [includeLoop, hs, if_true, hp] at hr
          simp at hr
          rcases hr with h1 | h1
          · exact h1
          · exact ih r h1
        · intro r hr
          simp only [includeLoop, hs, if_true] at hr
          simp only [Bool.not_eq_true] at hp
          simp [hp] at hr
          rcases hr with h1 | h1
          · exact h1
          · exact ih r h1
    · simpa [includeLoop, hs] using ih

theorem entryViols_paths (L : License) (e : Entry) :
    ∀ v ∈ entryViols L e, violationPathOf v = some e.path := by
  unfold entryViols fileChecks
  by_cases hx : L.ExcludeSuffixes.any (fun s => strHasSuffix e.name s) = true
  · simp [hx]
  · simpa [hx] using includeLoop_viols_paths L.Header e.path e.name e.content
      L.IncludeSuffixes

theorem entryReads_paths (L : License) (e : Entry) :
    ∀ r ∈ entryReads L e, r = e.path := by
  unfold entryReads fileChecks
  by_cases hx : L.ExcludeSuffixes.any (fun s => strHasSuffix e.name s) = true
  · simp [hx]
  · simpa [hx] using includeLoop_reads_paths L.Header e.path e.name e.content
      L.IncludeSuffixes

theorem entryViols_excluded (L : License) (e : Entry)
    (hx : L.ExcludeSuffixes.any (fun s => strHasSuffix e.name s) = true) :
    entryViols L e = [] := by
  simp [entryViols, fileChecks, hx]

theorem entryReads_excluded (L : License) (e : Entry)
    (hx : L.ExcludeSuffixes.any (fun s => strHasSuffix e.name s) = true) :
    entryReads L e = [] := by
  simp [entryReads, fileChecks, hx]

theorem entryViols_compliant (L : License) (e : Entry)
    (hc : compliantContent L.Header e.content = true) :
    entryViols L e = [] := by
  unfold entryViols fileChecks
  obtain ⟨c, hc1, hc2⟩ : ∃ c, e.content = some c ∧ L.Header.isPrefixOf c = true := by
    cases h : e.content with
    | none => rw [h] at hc; simp [compliantContent] at hc
    | some c => rw [h] at hc; exact ⟨c, rfl, by simpa [compliantContent] using hc⟩
  by_cases hx : L.ExcludeSuffixes.any (fun s => strHasSuffix e.name s) = true
  · simp [hx]
  · simp [hx, hc1, includeLoop_viols_compliant L.Header e.path e.name c hc2]

theorem entryViols_unreadable (L : License) (e : Entry)
    (hc : e.content = none)
    (hx : L.ExcludeSuffixes.any (fun s => strHasSuffix e.name s) = false)
    (hi : L.IncludeSuffixes.any (fun s => strHasSuffix e.name s) = true) :
    entryViols L e = [Violation.failedToOpen e.path] := by
  simp [entryViols, fileChecks, hx, hc, includeLoop_viols_unreadable, hi]

theorem entryViols_missing (L : License) (e : Entry) (c : List Nat)
    (hc : e.content = some c)
    (hx : L.ExcludeSuffixes.any (fun s => strHasSuffix e.name s) = false)
    (hp : L.Header.isPrefixOf c = false) :
    entryViols L e =
      (L.IncludeSuffixes.filter (fun s => strHasSuffix e.name s)).map
        (fun _ => Violation.missingHeader e.path) := by
  simp [entryViols, fileChecks, hx, hc, includeLoop_viols_missing L.Header
    e.path e.name c hp]

theorem violsAt_append (p : String) (a b : List Violation) :
    violsAt p (a ++ b) = violsAt p a ++ violsAt p b := by
  simp [violsAt, List.filter_append]

theorem violsAt_entry (L : License) (p : String) (e : Entry) :
    violsAt p (entryViols L e) = if e.path = p then entryViols L e else [] := by
  by_cases h : e.path = p
  · simp only [h, if_true]
    unfold violsAt
    apply List.filter_eq_self.mpr
    intro v hv
    have hp := entryViols_paths L e v hv
    simp [mentionsFile, hp, h]
  · simp only [h, if_false]
    unfold violsAt
    apply List.filter_eq_nil_iff.mpr
    intro v hv
    have hp := entryViols_paths L e v hv
    simp [mentionsFile, hp, h]

theorem violsAt_violsOf (L : License) (p : String) (es : List Entry) :
    violsAt p (violsOf L es) =
      violsOf L (es.filter (fun e => e.path == p)) := by
  induction es with
  | nil => simp [violsOf, violsAt]
  | cons e es ih =>
    simp only [violsOf, violsAt_append, ih, violsAt_entry]
    by_cases h : e.path = p
    · simp [h, violsOf]
    · simp [h, violsOf]

theorem violsAt_patternErrors (p : String) (es : List String) :
    violsAt p (es.map Violation.patternError) = [] := by
  induction es with
  | nil => simp [violsAt]
  | cons s es ih => simpa [violsAt, mentionsFile, violationPathOf] using ih

theorem violsAt_walkTail (p : String) (r : WalkRes) :
    violsAt p (walkTail r) = [] := by
  cases r <;> simp [walkTail, violsAt, mentionsFile, violationPathOf]

theorem violsOf_eq_nil (L : License) (es : List Entry)
    (h : ∀ e ∈ es, entryViols L e = []) : violsOf L es = [] := by
  induction es with
  | nil => simp [violsOf]
  | cons e es ih =>
    rw [violsOf, h e (by simp), List.nil_append]
    exact ih (fun x hx => h x (by simp [hx]))

theorem readsOf_mem (L : License) (es : List Entry) (r : String)
    (h : r ∈ readsOf L es) : ∃ e ∈ es, r ∈ entryReads L e := by
  induction es with
  | nil => simp [readsOf] at h
  | cons e es ih =>
    simp only [readsOf, List.mem_append] at h
    rcases h with h1 | h1
    · exact ⟨e, by simp, h1⟩
    · obtain ⟨x, hx1, hx2⟩ := ih h1
      exact ⟨x, by simp [hx1], hx2⟩

/-- Unfolds `ValidateLicenseHeaderFull` (non-empty header) through the
walk/visit characterisation: pattern errors first, then the per-file
violations in visit order, then the wrapped walk error if the walk failed;
the reads are the per-file reads in visit order. -/
theorem validateFull_visit (lib : List String → GitIgnore) (L : License)
    (root : FSTree) (h : ¬ L.Header = []) :
    ValidateLicenseHeaderFull lib L root =
      ({ errors := (lib L.SkipPaths).errs.map Violation.patternError ++
          (violsOf L (visitTree (lib L.SkipPaths).rel "." root).1 ++
           walkTail (visitTree (lib L.SkipPaths).rel "." root).2) },
       readsOf L (visitTree (lib L.SkipPaths).rel "." root).1) := by
  simp only [ValidateLicenseHeaderFull, h, if_false, walkTree_visit]
  cases hres : (visitTree (lib L.SkipPaths).rel "." root).2 with
  | ok => simp [hres, walkTail]
  | skipDir => simp [hres, walkTail]
  | fail e => simp [hres, walkTail]

theorem violsOf_not_raw (L : License) (es : List Entry) :
    ∀ v ∈ violsOf L es, isRawPassThrough v = false := by
  induction es with
  | nil => simp [violsOf]
  | cons e es ih =>
    intro v hv
    simp only [violsOf, List.mem_append] at hv
    rcases hv with h1 | h1
    · have hp := entryViols_paths L e v h1
      cases v <;> simp [violationPathOf, isRawPassThrough] at hp ⊢
    · exact ih v h1

/-! ## The claims -/

/-- C1 (code bug): a file whose relative path is matched by a `skipPaths`
pattern is still header-checked and still produces a violation.  The
`return nil` under the source's comment `skip single file` (license.go:108)
is nested below a second `info.IsDir()` test and is unreachable, so the
match at license.go:101 never skips a non-directory.  Concretely: pattern
`skip.go` matches the file `skip.go` (so the matcher returns a match for
it), its content `[105]` does not start with the header `[72]`, and the run
records a `missingHeader` violation for it — the claim says it must record
none. -/
theorem c1_path_matched_file_still_violates :
    (ValidateLicenseHeader
      (fun _ => { rel := fun p _ => p == "skip.go", errs := [] })
      { SkipPaths := ["skip.go"], IncludeSuffixes := [".go"],
        ExcludeSuffixes := [], Header := [72] }
      (FSTree.dir "." true
        (FSForest.cons (FSTree.file "skip.go" (some [105])) FSForest.nil))).errors
      = [Violation.missingHeader "skip.go"] := by decide

/-- C3 counterexample: with an empty header and a `skipPaths` pattern the
gitignore library rejects (the oracle reports one parse error, as the
library does e.g. for a pattern containing a bare carriage return), the
run records two violations — the raw pattern error and the
`headerNotDefined` error — not exactly one. -/
theorem c3_counterexample_pattern_error :
    (ValidateLicenseHeader
      (fun _ => { rel := fun _ _ => false,
                  errs := ["unexpected carriage return"] })
      { SkipPaths := ["bad\rpattern"], IncludeSuffixes := [".go"],
        ExcludeSuffixes := [], Header := [] }
      (FSTree.dir "." true FSForest.nil)).errors =
      [Violation.patternError "unexpected carriage return",
       Violation.headerNotDefined] ∧
    ¬ (ValidateLicenseHeader
      (fun _ => { rel := fun _ _ => false,
                  errs := ["unexpected carriage return"] })
      { SkipPaths := ["bad\rpattern"], IncludeSuffixes := [".go"],
        ExcludeSuffixes := [], Header := [] }
      (FSTree.dir "." true FSForest.nil)).errors.length = 1 := by decide

/-- C3 (amended): with an empty header the run appends the single
`headerNotDefined` violation after any pattern-compilation errors (so it is
the only violation exactly when the patterns compile cleanly), attempts no
file read, and performs no traversal: the result is independent of the
tree. -/
theorem c3_empty_header_single_violation_no_walk
    (lib : List String → GitIgnore) (L : License) (root : FSTree)
    (h : L.Header = []) :
    (ValidateLicenseHeaderFull lib L root).1.errors =
      (lib L.SkipPaths).errs.map Violation.patternError ++
        [Violation.headerNotDefined] ∧
    (ValidateLicenseHeaderFull lib L root).2 = [] ∧
    ∀ root2, ValidateLicenseHeaderFull lib L root =
      ValidateLicenseHeaderFull lib L root2 := by
  refine ⟨?_, ?_, fun root2 => ?_⟩ <;> simp [ValidateLicenseHeaderFull, h]

/-- C3 witness: a concrete empty-header configuration with cleanly compiled
patterns records exactly the one `headerNotDefined` violation and no reads. -/
theorem c3_witness :
    (ValidateLicenseHeaderFull (fun _ => { rel := fun _ _ => false, errs := [] })
      { SkipPaths := [], IncludeSuffixes := [".go"], ExcludeSuffixes := [],
        Header := [] }
      (FSTree.dir "." true
        (FSForest.cons (FSTree.file "b.go" (some [105])) FSForest.nil))).1.errors =
      [Violation.headerNotDefined] ∧
    (ValidateLicenseHeaderFull (fun _ => { rel := fun _ _ => false, errs := [] })
      { SkipPaths := [], IncludeSuffixes := [".go"], ExcludeSuffixes := [],
        Header := [] }
      (FSTree.dir "." true
        (FSForest.cons (FSTree.file "b.go" (some [105])) FSForest.nil))).2 = [] := by
  have h := c3_empty_header_single_violation_no_walk
    (fun _ => { rel := fun _ _ => false, errs := [] })
    { SkipPaths := [], IncludeSuffixes := [".go"], ExcludeSuffixes := [],
      Header := [] }
    (FSTree.dir "." true
      (FSForest.cons (FSTree.file "b.go" (some [105])) FSForest.nil))
    rfl
  exact ⟨by simpa using h.1, h.2.1⟩

/-- C6: a readable directory whose path the matcher matches is pruned
whole: walking it yields no violation, no file read, and the `SkipDir`
result, and the enclosing sibling loop continues exactly as if the
directory were absent. -/
theorem c6_matched_dir_prunes_subtree (L : License)
    (m : String → Bool → Bool) (parent name : String)
    (kids rest : FSForest)
    (h : m (joinPath parent name) true = true) :
    walkTree L m (joinPath parent name) (FSTree.dir name true kids) =
      { viols := [], reads := [], res := WalkRes.skipDir } ∧
    walkForest L m parent (FSForest.cons (FSTree.dir name true kids) rest) =
      walkForest L m parent rest := by
  constructor
  · simp [walkTree, h]
  · simp [walkForest, walkTree, nodeName, isDirNode, h]

/-- C6 witness: a matched `vendor` directory containing a violating file is
walked to the empty result. -/
theorem c6_witness :
    walkTree
      { SkipPaths := ["vendor/"], IncludeSuffixes := [".go"],
        ExcludeSuffixes := [], Header := [72] }
      (fun p _ => p == "vendor") (joinPath "." "vendor")
      (FSTree.dir "vendor" true
        (FSForest.cons (FSTree.file "c.go" (some [105])) FSForest.nil)) =
      { viols := [], reads := [], res := WalkRes.skipDir } :=
  (c6_matched_dir_prunes_subtree _ _ "." "vendor" _ FSForest.nil (by decide)).1

/-- C7: `Compliance` returns a nil error for every options value, License
configuration, gitignore oracle and filesystem tree; everything else is
inside the report. -/
theorem c7_compliance_returns_nil_error {O : Type}
    (lib : List String → GitIgnore) (L : License) (root : FSTree) (o : O) :
    (Compliance lib L root o).2 = none := rfl

/-- C10: the report `Compliance` produces is independent of the options
argument — any two options values (of any types, so in particular a nil
pointer) give identical results for the same License, matcher and tree. -/
theorem c10_compliance_ignores_options {O1 O2 : Type}
    (lib : List String → GitIgnore) (L : License) (root : FSTree)
    (o1 : O1) (o2 : O2) :
    Compliance lib L root o1 = Compliance lib L root o2 := rfl

/-- C4: a visited file whose read succeeds and whose content starts with
exactly the configured header bytes — and which is not excluded by suffix
rules and matches an include suffix, as the claim states — contributes no
violation: the run records no violation naming its path.  (The hypothesis
quantifies over every visited entry at that path; on a real filesystem
there is exactly one.) -/
theorem c4_compliant_file_no_violation (lib : List String → GitIgnore)
    (L : License) (root : FSTree) (p : String)
    (hall : ∀ e ∈ (visitTree (lib L.SkipPaths).rel "." root).1, e.path = p →
      L.ExcludeSuffixes.any (fun s => strHasSuffix e.name s) = false ∧
      L.IncludeSuffixes.any (fun s => strHasSuffix e.name s) = true ∧
      compliantContent L.Header e.content = true) :
    violsAt p (ValidateLicenseHeader lib L root).errors = [] := by
  by_cases hh : L.Header = []
  · simp only [ValidateLicenseHeader, ValidateLicenseHeaderFull, hh, if_true]
    simp [violsAt_append, violsAt_patternErrors, violsAt, mentionsFile,
      violationPathOf]
  · unfold ValidateLicenseHeader
    rw [validateFull_visit lib L root hh]
    simp only [violsAt_append, violsAt_patternErrors, violsAt_walkTail,
      violsAt_violsOf, List.nil_append, List.append_nil]
    rw [violsOf_eq_nil]
    intro e he
    rw [List.mem_filter] at he
    obtain ⟨he1, he2⟩ := he
    have hp : e.path = p := by simpa using he2
    exact entryViols_compliant L e (hall e he1 hp).2.2

/-- C4 witness: a compliant `a.go` (content starts with the header byte 72)
produces no violation. -/
theorem c4_witness :
    violsAt "a.go" (ValidateLicenseHeader
      (fun _ => { rel := fun _ _ => false, errs := [] })
      { SkipPaths := [], IncludeSuffixes := [".go"], ExcludeSuffixes := [],
        Header := [72] }
      (FSTree.dir "." true
        (FSForest.cons (FSTree.file "a.go" (some [72, 105]))
          FSForest.nil))).errors = [] :=
  c4_compliant_file_no_violation _ _ _ _ (by decide)

/-- C5: a file whose base name ends with some `excludeSuffixes` entry is
never read and produces no violation, whatever its content and even if an
include suffix also matches (the hypothesis asks only for the exclude
match): the run records no violation naming its path and never attempts to
read it. -/
theorem c5_exclude_suffix_takes_precedence (lib : List String → GitIgnore)
    (L : License) (root : FSTree) (p : String)
    (hall : ∀ e ∈ (visitTree (lib L.SkipPaths).rel "." root).1, e.path = p →
      L.ExcludeSuffixes.any (fun s => strHasSuffix e.name s) = true) :
    violsAt p (ValidateLicenseHeader lib L root).errors = [] ∧
    p ∉ (ValidateLicenseHeaderFull lib L root).2 := by
  by_cases hh : L.Header = []
  · constructor
    · simp only [ValidateLicenseHeader, ValidateLicenseHeaderFull, hh, if_true]
      simp [violsAt_append, violsAt_patternErrors, violsAt, mentionsFile,
        violationPathOf]
    · simp [ValidateLicenseHeaderFull, hh]
  · constructor
    · unfold ValidateLicenseHeader
      rw [validateFull_visit lib L root hh]
      simp only [violsAt_append, violsAt_patternErrors, violsAt_walkTail,
        violsAt_violsOf, List.nil_append, List.append_nil]
      rw [violsOf_eq_nil]
      intro e he
      rw [List.mem_filter] at he
      obtain ⟨he1, he2⟩ := he
      have hp : e.path = p := by simpa using he2
      exact entryViols_excluded L e (hall e he1 hp)
    · rw [validateFull_visit lib L root hh]
      intro hmem
      obtain ⟨e, he1, he2⟩ := readsOf_mem L _ p hmem
      have hep : p = e.path := entryReads_paths L e p he2
      have hx := hall e he1 hep.symm
      rw [entryReads_excluded L e hx] at he2
      simp at he2

/-- C5 witness: `foo_test.go` matches both `.go` (include) and `_test.go`
(exclude); with unreadable content it still yields no violation and no read
attempt. -/
theorem c5_witness :
    violsAt "foo_test.go" (ValidateLicenseHeader
      (fun _ => { rel := fun _ _ => false, errs := [] })
      { SkipPaths := [], IncludeSuffixes := [".go"],
        ExcludeSuffixes := ["_test.go"], Header := [72] }
      (FSTree.dir "." true
        (FSForest.cons (FSTree.file "foo_test.go" none)
          FSForest.nil))).errors = [] ∧
    "foo_test.go" ∉ (ValidateLicenseHeaderFull
      (fun _ => { rel := fun _ _ => false, errs := [] })
      { SkipPaths := [], IncludeSuffixes := [".go"],
        ExcludeSuffixes := ["_test.go"], Header := [72] }
      (FSTree.dir "." true
        (FSForest.cons (FSTree.file "foo_test.go" none)
          FSForest.nil))).2 :=
  c5_exclude_suffix_takes_precedence _ _ _ _ (by decide)

/-- C2 counterexample: the include loop appends one violation per matching
suffix, not one per file.  `a.go` matches both include suffixes `.go` and
`go`; its content `[105]` lacks the header `[72]`, and the run records two
`missingHeader` violations for this single file — not exactly one. -/
theorem c2_counterexample_two_suffixes :
    (ValidateLicenseHeader
      (fun _ => { rel := fun _ _ => false, errs := [] })
      { SkipPaths := [], IncludeSuffixes := [".go", "go"],
        ExcludeSuffixes := [], Header := [72] }
      (FSTree.dir "." true
        (FSForest.cons (FSTree.file "a.go" (some [105])) FSForest.nil))).errors =
      [Violation.missingHeader "a.go", Violation.missingHeader "a.go"] ∧
    ¬ (violsAt "a.go" (ValidateLicenseHeader
      (fun _ => { rel := fun _ _ => false, errs := [] })
      { SkipPaths := [], IncludeSuffixes := [".go", "go"],
        ExcludeSuffixes := [], Header := [72] }
      (FSTree.dir "." true
        (FSForest.cons (FSTree.file "a.go" (some [105]))
          FSForest.nil))).errors).length = 1 := by decide

/-- C2 (amended): for a visited, readable, non-excluded file whose content
does not start with the header, the run appends exactly one `missingHeader`
violation per include suffix matching its name — in particular exactly one
violation when exactly one include suffix matches, but k violations when k
suffixes match.  (The hypothesis fixes the visited entries at that path to
the single given one, as on a real filesystem.) -/
theorem c2_one_violation_per_matching_include_suffix
    (lib : List String → GitIgnore) (L : License) (root : FSTree)
    (p n : String) (c : List Nat)
    (hh : ¬ L.Header = [])
    (hvisit : (visitTree (lib L.SkipPaths).rel "." root).1.filter
        (fun e => e.path == p) =
      [{ path := p, name := n, content := some c }])
    (hex : L.ExcludeSuffixes.any (fun s => strHasSuffix n s) = false)
    (hnc : L.Header.isPrefixOf c = false) :
    violsAt p (ValidateLicenseHeader lib L root).errors =
      (L.IncludeSuffixes.filter (fun s => strHasSuffix n s)).map
        (fun _ => Violation.missingHeader p) := by
  unfold ValidateLicenseHeader
  rw [validateFull_visit lib L root hh]
  simp only [violsAt_append, violsAt_patternErrors, violsAt_walkTail,
    violsAt_violsOf, List.nil_append, List.append_nil, hvisit]
  rw [violsOf, violsOf]
  rw [entryViols_missing L { path := p, name := n, content := some c } c rfl
    hex hnc]
  simp

/-- C2 witness: with the single include suffix `.go`, a header-less `b.go`
yields exactly one violation. -/
theorem c2_amended_witness :
    violsAt "b.go" (ValidateLicenseHeader
      (fun _ => { rel := fun _ _ => false, errs := [] })
      { SkipPaths := [], IncludeSuffixes := [".go"], ExcludeSuffixes := [],
        Header := [72] }
      (FSTree.dir "." true
        (FSForest.cons (FSTree.file "b.go" (some [105]))
          FSForest.nil))).errors = [Violation.missingHeader "b.go"] := by
  have h := c2_one_violation_per_matching_include_suffix
    (fun _ => { rel := fun _ _ => false, errs := [] })
    { SkipPaths := [], IncludeSuffixes := [".go"], ExcludeSuffixes := [],
      Header := [72] }
    (FSTree.dir "." true
      (FSForest.cons (FSTree.file "b.go" (some [105])) FSForest.nil))
    "b.go" "b.go" [105] (by decide) (by decide) (by decide) (by decide)
  rw [h]
  decide

/-- C8: if a visited file is unreadable, not suffix-excluded, and matches
some include suffix, the run appends exactly one `failedToOpen` violation
for it, placed between the violations of the files visited before it and
those visited after it — the scan is not aborted and later files still
contribute their violations. -/
theorem c8_read_failure_one_violation_scan_continues
    (lib : List String → GitIgnore) (L : License) (root : FSTree)
    (e : Entry) (l1 l2 : List Entry)
    (hh : ¬ L.Header = [])
    (hsplit : (visitTree (lib L.SkipPaths).rel "." root).1 = l1 ++ e :: l2)
    (hc : e.content = none)
    (hex : L.ExcludeSuffixes.any (fun s => strHasSuffix e.name s) = false)
    (hinc : L.IncludeSuffixes.any (fun s => strHasSuffix e.name s) = true) :
    (ValidateLicenseHeader lib L root).errors =
      (lib L.SkipPaths).errs.map Violation.patternError ++
      (violsOf L l1 ++ (Violation.failedToOpen e.path ::
        (violsOf L l2 ++
          walkTail (visitTree (lib L.SkipPaths).rel "." root).2))) := by
  unfold ValidateLicenseHeader
  rw [validateFull_visit lib L root hh]
  rw [hsplit, violsOf_append, violsOf]
  rw [entryViols_unreadable L e hc hex hinc]
  simp

/-- C8 witness: `bad.go` is unreadable and `c.go` (visited after it) lacks
the header; the run records the read failure for `bad.go` followed by the
violation for `c.go`. -/
theorem c8_witness :
    (ValidateLicenseHeader
      (fun _ => { rel := fun _ _ => false, errs := [] })
      { SkipPaths := [], IncludeSuffixes := [".go"], ExcludeSuffixes := [],
        Header := [72] }
      (FSTree.dir "." true
        (FSForest.cons (FSTree.file "bad.go" none)
          (FSForest.cons (FSTree.file "c.go" (some [105]))
            FSForest.nil)))).errors =
      [Violation.failedToOpen "bad.go", Violation.missingHeader "c.go"] := by
  have h := c8_read_failure_one_violation_scan_continues
    (fun _ => { rel := fun _ _ => false, errs := [] })
    { SkipPaths := [], IncludeSuffixes := [".go"], ExcludeSuffixes := [],
      Header := [72] }
    (FSTree.dir "." true
      (FSForest.cons (FSTree.file "bad.go" none)
        (FSForest.cons (FSTree.file "c.go" (some [105])) FSForest.nil)))
    { path := "bad.go", name := "bad.go", content := none }
    []
    [{ path := "c.go", name := "c.go", content := some [105] }]
    (by decide) (by decide) rfl (by decide) (by decide)
  rw [h]
  decide

/-- C9 counterexample: a pattern the gitignore library rejects (the oracle
reports one parse error, as the library does e.g. for a pattern with a bare
carriage return) lands in the report as the raw underlying error, passed
through unwrapped and naming no path — so not every recorded error is a
wrapped message naming the offending path. -/
theorem c9_counterexample_raw_pattern_error :
    Violation.patternError "unexpected carriage return" ∈
      (ValidateLicenseHeader
        (fun _ => { rel := fun _ _ => false,
                    errs := ["unexpected carriage return"] })
        { SkipPaths := ["bad\rpattern"], IncludeSuffixes := [".go"],
          ExcludeSuffixes := [], Header := [72] }
        (FSTree.dir "." true FSForest.nil)).errors ∧
    isRawPassThrough (Violation.patternError "unexpected carriage return")
      = true ∧
    violationPathOf (Violation.patternError "unexpected carriage return")
      = none := by decide

/-- C9 (amended): the only errors the report passes through unwrapped are
the pattern-compilation errors from the gitignore library; every violation
produced by the header scan itself is a constructed message (the per-file
ones naming the offending path, plus the fixed header-not-configured text
and the wrapped walk-failure text). -/
theorem c9_only_pattern_errors_unwrapped (lib : List String → GitIgnore)
    (L : License) (root : FSTree) :
    ∀ v ∈ (ValidateLicenseHeader lib L root).errors,
      isRawPassThrough v = true →
        ∃ s ∈ (lib L.SkipPaths).errs, v = Violation.patternError s := by
  by_cases hh : L.Header = []
  · intro v hv hraw
    simp only [ValidateLicenseHeader, ValidateLicenseHeaderFull, hh, if_true,
      List.mem_append, List.mem_map] at hv
    rcases hv with ⟨s, hs1, hs2⟩ | h1
    · exact ⟨s, hs1, hs2.symm⟩
    · simp only [List.mem_singleton] at h1
      rw [h1] at hraw
      simp [isRawPassThrough] at hraw
  · intro v hv hraw
    unfold ValidateLicenseHeader at hv
    rw [validateFull_visit lib L root hh] at hv
    simp only [List.mem_append, List.mem_map] at hv
    rcases hv with ⟨s, hs1, hs2⟩ | h1 | h1
    · exact ⟨s, hs1, hs2.symm⟩
    · rw [violsOf_not_raw L _ v h1] at hraw
      simp at hraw
    · cases hres : (visitTree (lib L.SkipPaths).rel "." root).2 with
      | ok => rw [hres] at h1; simp [walkTail] at h1
      | skipDir => rw [hres] at h1; simp [walkTail] at h1
      | fail msg =>
        rw [hres] at h1
        simp only [walkTail, List.mem_singleton] at h1
        rw [h1] at hraw
        simp [isRawPassThrough] at hraw

/-- C9 witness: applying the amended theorem to a concrete run whose report
contains a raw pattern error recovers that error among the library's
reported parse errors. -/
theorem c9_witness :
    ∃ s ∈ ["unexpected carriage return"],
      Violation.patternError "unexpected carriage return" =
        Violation.patternError s :=
  c9_only_pattern_errors_unwrapped
    (fun _ => { rel := fun _ _ => false,
                errs := ["unexpected carriage return"] })
    { SkipPaths := ["bad\rpattern"], IncludeSuffixes := [".go"],
      ExcludeSuffixes := [], Header := [72] }
    (FSTree.dir "." true FSForest.nil)
    (Violation.patternError "unexpected carriage return")
    (by decide) (by decide)
